import Mathlib

/-!
Verification of `github.com/ceebydith/id`.

A shallow embedding of the identifier package: the Luhn-style validator
(`luhn_validator.go`), the no-op validator (`without_validator.go`), the bounded
range sequencer (`range_sequencer.go`) and the generator (`id.go`).

Go's `int64` is embedded as `Int`; every operation that can leave the 64-bit
range is followed by `wrap64`, Go's two's-complement wrap-around. Go's `/` and
`%` truncate toward zero: they are `Int.tdiv` and `Int.tmod`.
-/

namespace Id

/-! ## Machine integers -/

/-- Smallest `int64`. -/
def minInt64 : Int := -9223372036854775808

/-- Largest `int64`. -/
def maxInt64 : Int := 9223372036854775807

/-- Two's-complement wrap-around of a mathematical integer into `int64`. -/
def wrap64 (x : Int) : Int := (x + 9223372036854775808) % 18446744073709551616 - 9223372036854775808

/-- The value is representable as an `int64`. -/
def inInt64 (x : Int) : Prop := minInt64 ≤ x ∧ x ≤ maxInt64

instance (x : Int) : Decidable (inInt64 x) := by unfold inInt64; infer_instance

/-! ## `luhn_validator.go` -/

/-- The body of the `for number > 0` loop of `checksum`, iterated. The first
argument bounds the number of iterations; `checksum` passes `number.toNat`,
which the loop never exhausts because `number` shrinks at every iteration.
The accumulator `luhn` grows by at most 9 per decimal digit, so it stays far
inside `int64` and needs no wrap. -/
def checksumLoop : Nat → Int → Int → Bool → Int
  | 0, _, luhn, _ => luhn
  | fuel + 1, number, luhn, double =>
    if number > 0 then
      let cur := Int.tmod number 10
      let number := Int.tdiv number 10
      let cur := if double then (if cur * 2 > 9 then cur * 2 - 9 else cur * 2) else cur
      checksumLoop fuel number (luhn + cur) (!double)
    else luhn

/-- Go `checksum`: the digit sum of `number`, least significant digit first,
every second digit doubled (minus 9 when above 9), modulo 10. -/
def checksum (number : Int) : Int :=
  Int.tmod (checksumLoop number.toNat number 0 false) 10

/-- Go `luhnValidator.Sign`. -/
def luhnSign (number : Int) : Int :=
  let sign := checksum number
  let sign := if sign ≠ 0 then 10 - sign else sign
  wrap64 (wrap64 (number * 10) + sign)

/-- Go `luhnValidator.Verify`. -/
def luhnVerify (number : Int) : Bool :=
  Int.tmod (Int.tmod number 10 + checksum (Int.tdiv number 10)) 10 == 0

/-- Go `LuhnValidator()`'s check digit: `sign` as it stands in `Sign` just before
the `return`. -/
def checkDigit (number : Int) : Int :=
  let sign := checksum number
  if sign ≠ 0 then 10 - sign else sign

/-! ## `id.go`: the interfaces -/

/-- Go interface `Validator`. -/
structure Validator where
  /-- Go `Sign(number int64) int64`. -/
  Sign : Int → Int
  /-- Go `Verify(number int64) bool`. -/
  Verify : Int → Bool

/-- Go interface `Sequencer`. A call returns the pair `(int64, error)`, the
error being `none` for Go's `nil`, and the state `σ` of the sequence source
after the call. -/
structure Sequencer (σ ε : Type) where
  /-- Go `Generate(ctx) (int64, error)`. -/
  Generate : σ → (Int × Option ε) × σ

/-- Go `LuhnValidator()`. -/
def LuhnValidator : Validator := ⟨luhnSign, luhnVerify⟩

/-! ## `without_validator.go` -/

/-- Go `noValidator.Sign`. -/
def noSign (number : Int) : Int := number

/-- Go `noValidator.Verify`. -/
def noVerify (_number : Int) : Bool := true

/-- Go `NoValidator()`. -/
def NoValidator : Validator := ⟨noSign, noVerify⟩

/-! ## `range_sequencer.go` -/

/-- Go struct `rangeSequencer` (the mutex guards `value` and holds no data). -/
structure rangeSequencer where
  min : Int
  max : Int
  value : Int
deriving DecidableEq, Repr

/-- Go `rangeSequencer.Generate`: returns the current value and a `nil` error,
and leaves the incremented (wrapped to `min` past `max`) state. -/
def rangeSequencer.Generate {ε : Type} (s : rangeSequencer) : (Int × Option ε) × rangeSequencer :=
  let value := s.value
  let s := { s with value := wrap64 (s.value + 1) }
  let s := if s.value > s.max then { s with value := s.min } else s
  ((value, none), s)

/-- Go `RangeSequencer(min, max, value...)`; the variadic `value` is a list. -/
def RangeSequencer (min max : Int) (value : List Int) : rangeSequencer :=
  let min := if min > max then max else min
  match value with
  | v :: _ =>
    if v ≥ min ∧ v ≤ max then { min := min, max := max, value := v }
    else { min := min, max := max, value := min }
  | [] => { min := min, max := max, value := min }

/-- The range sequencer seen through the `Sequencer` interface. -/
def rangeSeq (ε : Type) : Sequencer rangeSequencer ε := ⟨rangeSequencer.Generate⟩

/-- The state of a range sequencer after `k` calls to `Generate`. -/
def rangeSequencer.after (s : rangeSequencer) : Nat → rangeSequencer
  | 0 => s
  | k + 1 => (rangeSequencer.Generate (ε := Unit) (rangeSequencer.after s k)).2

/-- The pair returned by call number `k` (counted from 0) to `Generate`. -/
def rangeSequencer.nth (s : rangeSequencer) (k : Nat) : Int × Option Unit :=
  (rangeSequencer.Generate (s.after k)).1

/-! ## `id.go`: the generator -/

/-- Go struct `Generator`. -/
structure Generator (σ ε : Type) where
  sequencer : Sequencer σ ε
  validator : Validator
  since : Int

/-- Go `Generator.Generate`; `now` is the reading `time.Now().Unix()` and `st`
the state of the sequencer before the call. -/
def Generator.Generate {σ ε : Type} (g : Generator σ ε) (now : Int) (st : σ) :
    (Int × Option ε) × σ :=
  match g.sequencer.Generate st with
  | ((_, some err), st') => ((0, some err), st')
  | ((seq, none), st') =>
    let number := wrap64 (wrap64 (wrap64 (now - g.since) * 10000) + Int.tmod seq 10000)
    ((g.validator.Sign number, none), st')

/-- Go `Generator.Valid`. -/
def Generator.Valid {σ ε : Type} (g : Generator σ ε) (value : Int) : Bool :=
  g.validator.Verify value

/-- Go `New(sequencer, validator, since...)`; each element of `since` is the
Unix time, in seconds, of the `time.Time` passed. -/
def New {σ ε : Type} (sequencer : Sequencer σ ε) (validator : Validator) (since : List Int) :
    Generator σ ε :=
  let startTime := match since with
    | t :: _ => t
    | [] => 0
  { sequencer := sequencer, validator := validator, since := startTime }

/-- Successive calls to `Generate`, one per clock reading of the list; returns
the pairs produced, in call order, and the final sequencer state. -/
def Generator.run {σ ε : Type} (g : Generator σ ε) : List Int → σ → List (Int × Option ε) × σ
  | [], st => ([], st)
  | now :: rest, st =>
    let r := g.Generate now st
    let rs := Generator.run g rest r.2
    (r.1 :: rs.1, rs.2)

/-- The composite number `Generate` hands to the validator, as a mathematical
integer (no wrap-around). -/
def composite (since now seq : Int) : Int := (now - since) * 10000 + Int.tmod seq 10000

/-! ## Auxiliary definitions for the proofs -/

/-- The contribution of one decimal digit to the Luhn sum: the digit itself,
or its double (minus 9 when the double exceeds 9) when `double` is set. -/
def digitWeight (double : Bool) (cur : Int) : Int :=
  if double then (if cur * 2 > 9 then cur * 2 - 9 else cur * 2) else cur

/-- The sum accumulated by the loop of `checksum`, started with the given
value of the `double` flag. -/
def luhnSum (double : Bool) (number : Int) : Int :=
  checksumLoop number.toNat number 0 double

/-- A sequencer whose every call fails with the error `e`, returning the value
`seq` beside it: the shape of a failing external sequence source. -/
def failingSequencer {ε : Type} (seq : Int) (e : ε) : Sequencer Unit ε :=
  ⟨fun st => ((seq, some e), st)⟩

/-- The value a range sequencer starts from: the first `initial` when one is
given inside `[min, max]`, otherwise `min`. -/
def startValue (min max : Int) (initial : List Int) : Int :=
  match initial with
  | v :: _ => if min ≤ v ∧ v ≤ max then v else min
  | [] => min

/-- The decimal digit of `v` at position `i`, position 0 being the rightmost. -/
def digitAt (v : Int) (i : Nat) : Int := v / 10 ^ i % 10

/-- The number obtained from `v` by writing the digit `b` at position `i`. -/
def replaceDigit (v : Int) (i : Nat) (b : Int) : Int := v + (b - digitAt v i) * 10 ^ i

/-- The reference Luhn sum of `v`, after the words of the specification:
numbering the decimal digits of `v` from the right starting at 0, the digits at
even positions plus, for each digit `x` at an odd position, `2x` reduced by 9
when `2x > 9`. A non-negative `int64` has at most 19 digits. -/
def referenceLuhnSum (v : Int) : Int :=
  ((List.range 19).map (fun i =>
    if i % 2 = 0 then digitAt v i
    else if 2 * digitAt v i > 9 then 2 * digitAt v i - 9 else 2 * digitAt v i)).sum

/-- Validity under the reference Luhn definition: the reference sum is divisible
by 10. -/
def referenceLuhnValid (v : Int) : Bool := referenceLuhnSum v % 10 == 0

/-- The number obtained from `v` by exchanging its digits at positions `i` and
`i + 1`. -/
def swapAdjacent (v : Int) (i : Nat) : Int :=
  v + (digitAt v (i + 1) - digitAt v i) * 10 ^ i
    + (digitAt v i - digitAt v (i + 1)) * 10 ^ (i + 1)

/-- The lower bound of a range sequencer after the clamping of the constructor:
`max` when `min > max`, otherwise `min`. -/
def clampedMin (min max : Int) : Int := if min > max then max else min

/-! ## The digit loop -/

theorem checksumLoop_succ_pos (fuel : Nat) (number luhn : Int) (double : Bool)
    (h : 0 < number) :
    checksumLoop (fuel + 1) number luhn double =
      checksumLoop fuel (number / 10) (luhn + digitWeight double (number % 10)) (!double) := by
  have h1 : Int.tmod number 10 = number % 10 := Int.tmod_eq_emod (le_of_lt h) (by decide)
  have h2 : Int.tdiv number 10 = number / 10 := Int.tdiv_eq_ediv (le_of_lt h) (by decide)
  simp only [checksumLoop, gt_iff_lt, h, if_true, h1, h2, digitWeight]

theorem checksumLoop_nonpos (fuel : Nat) (number luhn : Int) (double : Bool)
    (h : number ≤ 0) : checksumLoop fuel number luhn double = luhn := by
  cases fuel with
  | zero => rfl
  | succ k => simp only [checksumLoop, gt_iff_lt, not_lt.mpr h, if_false]

theorem checksumLoop_fuel (f₁ : Nat) :
    ∀ (f₂ : Nat) (number luhn : Int) (double : Bool),
      number.toNat ≤ f₁ → number.toNat ≤ f₂ →
      checksumLoop f₁ number luhn double = checksumLoop f₂ number luhn double := by
  induction f₁ with
  | zero =>
    intro f₂ number luhn double h1 _
    have hn : number ≤ 0 := by omega
    rw [checksumLoop_nonpos _ _ _ _ hn, checksumLoop_nonpos _ _ _ _ hn]
  | succ k ih =>
    intro f₂ number luhn double h1 h2
    by_cases hn : 0 < number
    · cases f₂ with
      | zero => omega
      | succ j =>
        rw [checksumLoop_succ_pos _ _ _ _ hn, checksumLoop_succ_pos _ _ _ _ hn]
        exact ih _ _ _ _ (by omega) (by omega)
    · have hn' : number ≤ 0 := not_lt.mp hn
      rw [checksumLoop_nonpos _ _ _ _ hn', checksumLoop_nonpos _ _ _ _ hn']

theorem checksumLoop_acc (fuel : Nat) :
    ∀ (number luhn : Int) (double : Bool),
      checksumLoop fuel number luhn double = luhn + checksumLoop fuel number 0 double := by
  induction fuel with
  | zero => intro number luhn double; simp [checksumLoop]
  | succ k ih =>
    intro number luhn double
    by_cases hn : 0 < number
    · rw [checksumLoop_succ_pos _ _ _ _ hn, checksumLoop_succ_pos _ _ _ _ hn,
        ih _ (luhn + _), ih _ (0 + _)]
      ring
    · have hn' : number ≤ 0 := not_lt.mp hn
      rw [checksumLoop_nonpos _ _ _ _ hn', checksumLoop_nonpos _ _ _ _ hn']
      ring

theorem luhnSum_nonpos (double : Bool) (number : Int) (h : number ≤ 0) :
    luhnSum double number = 0 :=
  checksumLoop_nonpos _ _ _ _ h

theorem digitWeight_zero (double : Bool) : digitWeight double 0 = 0 := by
  cases double <;> simp [digitWeight]

/-- One turn of the loop, as a recurrence on the accumulated sum. -/
theorem luhnSum_step (double : Bool) (number : Int) (h : 0 ≤ number) :
    luhnSum double number =
      digitWeight double (number % 10) + luhnSum (!double) (number / 10) := by
  by_cases hn : 0 < number
  · unfold luhnSum
    obtain ⟨k, hk⟩ : ∃ k, number.toNat = k + 1 := ⟨number.toNat - 1, by omega⟩
    rw [hk, checksumLoop_succ_pos _ _ _ _ hn, checksumLoop_acc, zero_add,
      checksumLoop_fuel k (number / 10).toNat _ _ _ (by omega) (le_refl _)]
  · have h0 : number = 0 := by omega
    subst h0
    simp [luhnSum_nonpos, digitWeight_zero]

theorem digitWeight_nonneg (double : Bool) (cur : Int) (h : 0 ≤ cur) :
    0 ≤ digitWeight double cur := by
  unfold digitWeight
  split_ifs <;> omega

theorem checksumLoop_nonneg (fuel : Nat) :
    ∀ (number luhn : Int) (double : Bool), 0 ≤ luhn →
      0 ≤ checksumLoop fuel number luhn double := by
  induction fuel with
  | zero => intro number luhn double h; simpa [checksumLoop] using h
  | succ k ih =>
    intro number luhn double h
    by_cases hn : 0 < number
    · rw [checksumLoop_succ_pos _ _ _ _ hn]
      exact ih _ _ _ (add_nonneg h (digitWeight_nonneg _ _ (by omega)))
    · rw [checksumLoop_nonpos _ _ _ _ (not_lt.mp hn)]
      exact h

theorem luhnSum_nonneg (double : Bool) (number : Int) : 0 ≤ luhnSum double number :=
  checksumLoop_nonneg _ _ _ _ (le_refl 0)

theorem checksum_eq (number : Int) : checksum number = luhnSum false number % 10 :=
  Int.tmod_eq_emod (luhnSum_nonneg _ _) (by decide)

theorem checksum_nonneg (number : Int) : 0 ≤ checksum number := by
  rw [checksum_eq]; omega

theorem checksum_le (number : Int) : checksum number ≤ 9 := by
  rw [checksum_eq]; omega

theorem checksum_nonpos (number : Int) (h : number ≤ 0) : checksum number = 0 := by
  rw [checksum_eq, luhnSum_nonpos _ _ h]; rfl

/-! ## Wrap-around -/

theorem wrap64_of_inInt64 (x : Int) (h : inInt64 x) : wrap64 x = x := by
  unfold inInt64 minInt64 maxInt64 at h
  unfold wrap64
  omega

theorem wrap64_inInt64 (x : Int) : inInt64 (wrap64 x) := by
  unfold inInt64 minInt64 maxInt64 wrap64
  omega

theorem wrap64_add_left (a b : Int) : wrap64 (wrap64 a + b) = wrap64 (a + b) := by
  unfold wrap64
  omega

theorem wrap64_mul_const (a : Int) : wrap64 (wrap64 a * 10000) = wrap64 (a * 10000) := by
  unfold wrap64
  omega

/-! ## Signing and verifying -/

theorem checkDigit_nonneg (number : Int) : 0 ≤ checkDigit number := by
  have h1 := checksum_nonneg number
  have h2 := checksum_le number
  unfold checkDigit
  simp only []
  split_ifs <;> omega

theorem checkDigit_le (number : Int) : checkDigit number ≤ 9 := by
  have h1 := checksum_nonneg number
  have h2 := checksum_le number
  unfold checkDigit
  simp only []
  split_ifs <;> omega

theorem checkDigit_add_checksum (number : Int) :
    (checkDigit number + checksum number) % 10 = 0 := by
  have h1 := checksum_nonneg number
  have h2 := checksum_le number
  unfold checkDigit
  simp only []
  split_ifs <;> omega

theorem luhnSign_eq (number : Int) :
    luhnSign number = wrap64 (number * 10 + checkDigit number) := by
  unfold luhnSign checkDigit
  simp only []
  exact wrap64_add_left _ _

theorem luhnSign_of_fits (number : Int) (h : inInt64 (number * 10 + checkDigit number)) :
    luhnSign number = number * 10 + checkDigit number := by
  rw [luhnSign_eq, wrap64_of_inInt64 _ h]

theorem luhnVerify_iff (number : Int) :
    luhnVerify number = true ↔
      Int.tmod (Int.tmod number 10 + checksum (Int.tdiv number 10)) 10 = 0 := by
  simp [luhnVerify]

/-- On a number written as prefix `n ≥ 0` followed by the digit `d`, `Verify`
tests the congruence `d + checksum n ≡ 0 (mod 10)`. -/
theorem luhnVerify_append (n d : Int) (hn : 0 ≤ n) (hd0 : 0 ≤ d) (hd9 : d ≤ 9) :
    luhnVerify (n * 10 + d) = true ↔ (d + checksum n) % 10 = 0 := by
  have hx : 0 ≤ n * 10 + d := by omega
  have h1 : Int.tmod (n * 10 + d) 10 = d := by
    rw [Int.tmod_eq_emod hx (by decide)]; omega
  have h2 : Int.tdiv (n * 10 + d) 10 = n := by
    rw [Int.tdiv_eq_ediv hx (by decide)]; omega
  have h3 := checksum_nonneg n
  rw [luhnVerify_iff, h1, h2, Int.tmod_eq_emod (by omega) (by decide)]

/-- On a non-positive multiple of ten `Verify` answers true. -/
theorem luhnVerify_nonpos_mul (n : Int) (hn : n ≤ 0) : luhnVerify (n * 10) = true := by
  have h1 : Int.tmod (n * 10) 10 = 0 := Int.mul_tmod_left _ _
  have h2 : Int.tdiv (n * 10) 10 = n := Int.mul_tdiv_cancel _ (by decide)
  rw [luhnVerify_iff, h1, h2, checksum_nonpos _ hn]
  rfl

/-- Round trip for every number whose signed form does not overflow. -/
theorem luhnVerify_luhnSign_of_fits (n : Int) (h : inInt64 (n * 10 + checkDigit n)) :
    luhnVerify (luhnSign n) = true := by
  rw [luhnSign_of_fits n h]
  by_cases hn : 0 ≤ n
  · rw [luhnVerify_append n _ hn (checkDigit_nonneg n) (checkDigit_le n)]
    exact checkDigit_add_checksum n
  · have hn' : n ≤ 0 := by omega
    have hc : checkDigit n = 0 := by
      unfold checkDigit
      simp [checksum_nonpos n hn']
    rw [hc, add_zero]
    exact luhnVerify_nonpos_mul n hn'

/-! ## Changing one digit -/

theorem digitWeight_inj_mod (double : Bool) (a b s t : Int) (ha0 : 0 ≤ a) (ha9 : a ≤ 9)
    (hb0 : 0 ≤ b) (hb9 : b ≤ 9) (hne : b ≠ a) (hst : s % 10 = t % 10) :
    (digitWeight double b + s) % 10 ≠ (digitWeight double a + t) % 10 := by
  unfold digitWeight
  cases double <;> simp only [if_true, if_false, Bool.false_eq_true] <;> omega

theorem ediv_ten_pow_succ (n : Int) (k : Nat) (hn : 0 ≤ n) :
    n / 10 ^ (k + 1) = n / 10 / 10 ^ k := by
  obtain ⟨m, rfl⟩ := Int.eq_ofNat_of_zero_le hn
  have h : ((m / 10 ^ (k + 1) : Nat) : Int) = ((m / 10 / 10 ^ k : Nat) : Int) := by
    rw [pow_succ, mul_comm, Nat.div_div_eq_div_mul]
  exact_mod_cast h

theorem digitAt_succ (n : Int) (k : Nat) (hn : 0 ≤ n) :
    digitAt n (k + 1) = digitAt (n / 10) k := by
  unfold digitAt
  rw [ediv_ten_pow_succ n k hn]

/-- Writing another digit at one position changes the loop's sum modulo 10. -/
theorem luhnSum_replaceDigit (i : Nat) :
    ∀ (double : Bool) (n b : Int), 0 ≤ n → 0 ≤ replaceDigit n i b → 0 ≤ b → b ≤ 9 →
      b ≠ digitAt n i →
      luhnSum double (replaceDigit n i b) % 10 ≠ luhnSum double n % 10 := by
  induction i with
  | zero =>
    intro double n b hn hn' hb0 hb9 hne
    simp only [replaceDigit, digitAt, pow_zero, Int.ediv_one, mul_one] at hn' hne ⊢
    rw [luhnSum_step double _ hn', luhnSum_step double n hn]
    have h1 : (n + (b - n % 10)) % 10 = b := by omega
    have h2 : (n + (b - n % 10)) / 10 = n / 10 := by omega
    rw [h1, h2]
    exact digitWeight_inj_mod double _ _ _ _ (by omega) (by omega) hb0 hb9 hne rfl
  | succ k ih =>
    intro double n b hn hn' hb0 hb9 hne
    have hd : digitAt n (k + 1) = digitAt (n / 10) k := digitAt_succ n k hn
    have hr : replaceDigit n (k + 1) b = n + 10 * ((b - digitAt (n / 10) k) * 10 ^ k) := by
      unfold replaceDigit
      rw [hd, pow_succ]
      ring
    have hq : replaceDigit n (k + 1) b / 10 = replaceDigit (n / 10) k b := by
      rw [hr]; unfold replaceDigit; omega
    have hm : replaceDigit n (k + 1) b % 10 = n % 10 := by
      rw [hr]; omega
    rw [luhnSum_step double _ hn', luhnSum_step double n hn, hq, hm]
    have hq0 : 0 ≤ replaceDigit (n / 10) k b := by rw [← hq]; omega
    have := ih (!double) (n / 10) b (by omega) hq0 hb0 hb9 (by rw [← hd]; exact hne)
    omega

/-! ## Claims on the Luhn validator -/

/-- C1 (as amended): for every `n ≥ 0` whose signed form `n * 10 + check digit`
fits in `int64`, `Verify (Sign n)` is true for the Luhn validator. -/
theorem luhn_roundtrip (n : Int) (hn : 0 ≤ n) (hfit : n * 10 + checkDigit n ≤ maxInt64) :
    luhnVerify (luhnSign n) = true := by
  apply luhnVerify_luhnSign_of_fits
  have := checkDigit_nonneg n
  unfold inInt64 minInt64
  constructor
  · omega
  · exact hfit

/-- The input of the repository's test, `123456789`: its signed form fits, and it
verifies. -/
theorem luhn_roundtrip_witness :
    (0 : Int) ≤ 123456789 ∧ (123456789 : Int) * 10 + checkDigit 123456789 ≤ maxInt64 ∧
      luhnVerify (luhnSign 123456789) = true :=
  ⟨by decide, by decide, luhn_roundtrip 123456789 (by decide) (by decide)⟩

/-- C1 as stated fails: `10 ^ 18` is a non-negative `int64`, signing it wraps
around to `-8446744073709551607`, and `Verify` rejects the result. -/
theorem luhn_roundtrip_overflow :
    (0 : Int) ≤ 1000000000000000000 ∧ (1000000000000000000 : Int) ≤ maxInt64 ∧
      luhnSign 1000000000000000000 = -8446744073709551607 ∧
      luhnVerify (luhnSign 1000000000000000000) = false := by
  decide

/-- C2: for `n ≥ 0` with `10 * n + 9 ≤ 2^63 - 1`, replacing the digit at any
position `i` of `v = Sign n` by a different digit `b` gives a number
(non-negative, inside `int64`) that `Verify` rejects. -/
theorem luhn_single_digit_detected (n : Int) (i : Nat) (b : Int)
    (hn : 0 ≤ n) (hfit : n * 10 + 9 ≤ maxInt64)
    (hb0 : 0 ≤ b) (hb9 : b ≤ 9) (hne : b ≠ digitAt (luhnSign n) i)
    (hv0 : 0 ≤ replaceDigit (luhnSign n) i b)
    (_hvmax : replaceDigit (luhnSign n) i b ≤ maxInt64) :
    luhnVerify (replaceDigit (luhnSign n) i b) = false := by
  have hc0 := checkDigit_nonneg n
  have hc9 := checkDigit_le n
  have hin : inInt64 (n * 10 + checkDigit n) := by
    unfold inInt64 minInt64; constructor <;> omega
  have hsign := luhnSign_of_fits n hin
  have hrt := (luhnVerify_append n _ hn hc0 hc9).mp (by
    rw [← hsign]; exact luhnVerify_luhnSign_of_fits n hin)
  have hv : 0 ≤ luhnSign n := by rw [hsign]; omega
  have hvd : luhnSign n / 10 = n := by rw [hsign]; omega
  have hvm : luhnSign n % 10 = checkDigit n := by rw [hsign]; omega
  rw [checksum_eq] at hrt
  -- write the corrupted number as prefix and last digit
  have hsplit : replaceDigit (luhnSign n) i b
      = (replaceDigit (luhnSign n) i b / 10) * 10 + replaceDigit (luhnSign n) i b % 10 := by
    omega
  rw [Bool.eq_false_iff]
  intro hver
  rw [hsplit, luhnVerify_append _ _ (by omega) (by omega) (by omega), checksum_eq] at hver
  cases i with
  | zero =>
    simp only [replaceDigit, digitAt, pow_zero, Int.ediv_one, mul_one] at hver hne
    have h1 : (luhnSign n + (b - luhnSign n % 10)) % 10 = b := by omega
    have h2 : (luhnSign n + (b - luhnSign n % 10)) / 10 = n := by omega
    rw [h1, h2] at hver
    omega
  | succ k =>
    have hd : digitAt (luhnSign n) (k + 1) = digitAt n k := by
      rw [digitAt_succ _ k hv, hvd]
    have hr : replaceDigit (luhnSign n) (k + 1) b
        = luhnSign n + 10 * ((b - digitAt n k) * 10 ^ k) := by
      unfold replaceDigit
      rw [hd, pow_succ]
      ring
    have hq : replaceDigit (luhnSign n) (k + 1) b / 10 = replaceDigit n k b := by
      rw [hr]; unfold replaceDigit; omega
    have hm : replaceDigit (luhnSign n) (k + 1) b % 10 = checkDigit n := by
      rw [hr]; omega
    rw [hq, hm] at hver
    have hq0 : 0 ≤ replaceDigit n k b := by rw [← hq]; omega
    have := luhnSum_replaceDigit k false n b hn hq0 hb0 hb9 (by rw [← hd]; exact hne)
    omega

/-- A corrupted digit on the test's number: `Sign 123456789 = 1234567893`, and
writing `0` over its digit `7` (position 3) gives `1234560893`, which is rejected. -/
theorem luhn_single_digit_detected_witness :
    replaceDigit (luhnSign 123456789) 3 0 = 1234560893 ∧
      luhnVerify (replaceDigit (luhnSign 123456789) 3 0) = false :=
  ⟨by decide, luhn_single_digit_detected 123456789 3 0 (by decide) (by decide) (by decide)
    (by decide) (by decide) (by decide) (by decide)⟩

/-- C3: for `n ≥ 0` with `10 * n + 9 ≤ 2^63 - 1` and a digit `d`, `Verify (10 * n + d)`
is true exactly when `10 * n + d = Sign n`; so each of the nine other final
digits is rejected. -/
theorem luhn_unique_check_digit (n d : Int) (hn : 0 ≤ n) (hfit : n * 10 + 9 ≤ maxInt64)
    (hd0 : 0 ≤ d) (hd9 : d ≤ 9) :
    (luhnVerify (n * 10 + d) = true ↔ n * 10 + d = luhnSign n) ∧
      (n * 10 + d ≠ luhnSign n → luhnVerify (n * 10 + d) = false) := by
  have hc0 := checkDigit_nonneg n
  have hc9 := checkDigit_le n
  have hin : inInt64 (n * 10 + checkDigit n) := by
    unfold inInt64 minInt64; constructor <;> omega
  have hsign := luhnSign_of_fits n hin
  have hsum := checkDigit_add_checksum n
  have hk0 := checksum_nonneg n
  have hk9 := checksum_le n
  have key : luhnVerify (n * 10 + d) = true ↔ n * 10 + d = luhnSign n := by
    rw [luhnVerify_append n d hn hd0 hd9, hsign]
    constructor <;> intro h <;> omega
  refine ⟨key, fun hne => ?_⟩
  rw [Bool.eq_false_iff]
  exact fun h => hne (key.mp h)

/-- The check digit of the test's number: the prefix `123456789` with final digit `0`. -/
theorem luhn_unique_check_digit_witness :
    (luhnVerify ((123456789 : Int) * 10 + 0) = true ↔
        (123456789 : Int) * 10 + 0 = luhnSign 123456789) ∧
      ((123456789 : Int) * 10 + 0 ≠ luhnSign 123456789 →
        luhnVerify ((123456789 : Int) * 10 + 0) = false) :=
  luhn_unique_check_digit 123456789 0 (by decide) (by decide) (by decide) (by decide)

/-- C10 fails on the code: `Sign 1 = 19`, and `checksum 19 = 1`, not `0`. The loop
starts with `double = false` on the payload as well as on the signed number, so
the digit next to the check digit is doubled by `checksum (Sign n)` but was not
doubled when the check digit was computed. -/
theorem luhn_signed_checksum_nonzero :
    (0 : Int) ≤ 1 ∧ (1 : Int) * 10 + 9 ≤ maxInt64 ∧ luhnSign 1 = 19 ∧
      checksum (luhnSign 1) = 1 := by
  decide

/-! ## The generator -/

/-- Wrapping after each operation of the composite equals wrapping once. -/
theorem wrap64_composite (since now seq : Int) :
    wrap64 (wrap64 (wrap64 (now - since) * 10000) + Int.tmod seq 10000)
      = wrap64 (composite since now seq) := by
  unfold composite
  rw [wrap64_mul_const, wrap64_add_left]

theorem Generator.Generate_ok {σ ε : Type} (g : Generator σ ε) (now seq : Int) (st st' : σ)
    (h : g.sequencer.Generate st = ((seq, none), st')) :
    g.Generate now st = ((g.validator.Sign (wrap64 (composite g.since now seq)), none), st') := by
  unfold Generator.Generate
  rw [h]
  simp only []
  rw [wrap64_composite]

/-- C4: a generator with the Luhn validator, whatever its origin, the clock
reading and the value the sequencer returns without error: when the composite
and its signed form fit in `int64`, the id returned by `Generate` passes `Valid`. -/
theorem generate_valid {σ ε : Type} (g : Generator σ ε) (now seq : Int) (st st' : σ)
    (hv : g.validator = LuhnValidator)
    (hseq : g.sequencer.Generate st = ((seq, none), st'))
    (hc : inInt64 (composite g.since now seq))
    (hs : inInt64 (composite g.since now seq * 10 + checkDigit (composite g.since now seq))) :
    (g.Generate now st).1.2 = none ∧ g.Valid (g.Generate now st).1.1 = true := by
  rw [Generator.Generate_ok g now seq st st' hseq, wrap64_of_inInt64 _ hc]
  refine ⟨rfl, ?_⟩
  unfold Generator.Valid
  rw [hv]
  exact luhnVerify_luhnSign_of_fits _ hs

/-- The test's set-up, `RangeSequencer(1, 100)` with the origin equal to the clock
reading: the first id is `19`, and it is valid. -/
theorem generate_valid_witness :
    ((New (rangeSeq Unit) LuhnValidator [1700000000]).Generate 1700000000
        (RangeSequencer 1 100 [])).1.2 = none ∧
      (New (rangeSeq Unit) LuhnValidator [1700000000]).Valid
        ((New (rangeSeq Unit) LuhnValidator [1700000000]).Generate 1700000000
          (RangeSequencer 1 100 [])).1.1 = true :=
  generate_valid (New (rangeSeq Unit) LuhnValidator [1700000000]) 1700000000 1
    (RangeSequencer 1 100 []) { min := 1, max := 100, value := 2 } rfl (by decide) (by decide)
    (by decide)

/-- C5: when the sequencer returns `seq` without error, `Generate` returns, with a
nil error, the validator's `Sign` of `(now - since) * 10000 + seq % 10000`
evaluated in wrapping `int64` arithmetic with truncating `%`; wrapping after
each operation is the same as wrapping the exact composite once. -/
theorem generate_composition {σ ε : Type} (g : Generator σ ε) (now seq : Int) (st st' : σ)
    (hseq : g.sequencer.Generate st = ((seq, none), st')) :
    g.Generate now st =
        ((g.validator.Sign
          (wrap64 (wrap64 (wrap64 (now - g.since) * 10000) + Int.tmod seq 10000)), none), st') ∧
      g.Generate now st = ((g.validator.Sign (wrap64 (composite g.since now seq)), none), st') := by
  refine ⟨?_, Generator.Generate_ok g now seq st st' hseq⟩
  rw [Generator.Generate_ok g now seq st st' hseq, wrap64_composite]

/-- A concrete call: origin 1000, clock 1005, sequence value 12345
from a range sequencer; the composite is `5 * 10000 + 2345`. -/
theorem generate_composition_witness :
    (New (rangeSeq Unit) NoValidator [1000]).Generate 1005 (RangeSequencer 1 99999 [12345])
      = ((52345, none), { min := 1, max := 99999, value := 12346 }) :=
  ((generate_composition (New (rangeSeq Unit) NoValidator [1000]) 1005 12345
    (RangeSequencer 1 99999 [12345]) { min := 1, max := 99999, value := 12346 } rfl).2).trans
    (by decide)

/-- C6: when the sequencer's `Generate` returns an error, the generator returns
the value 0 with that same error, whatever the validator, the origin and the
clock reading. -/
theorem generate_error {σ ε : Type} (g : Generator σ ε) (now seq : Int) (e : ε) (st st' : σ)
    (hseq : g.sequencer.Generate st = ((seq, some e), st')) :
    g.Generate now st = ((0, some e), st') := by
  unfold Generator.Generate
  rw [hseq]

/-- A concrete failure: a sequencer failing with error code 7 (and the
stray value 42) under the Luhn validator. -/
theorem generate_error_witness :
    (New (failingSequencer 42 (7 : Nat)) LuhnValidator [1000]).Generate 1005 ()
      = ((0, some 7), ()) :=
  generate_error (New (failingSequencer 42 (7 : Nat)) LuhnValidator [1000]) 1005 42 7 () () rfl

/-! ## The range sequencer -/

theorem startValue_mem (min max : Int) (initial : List Int) (h : min ≤ max) :
    min ≤ startValue min max initial ∧ startValue min max initial ≤ max := by
  unfold startValue
  cases initial with
  | nil => exact ⟨le_refl _, h⟩
  | cons v _ =>
    simp only []
    split_ifs with hv
    · exact hv
    · exact ⟨le_refl _, h⟩

theorem RangeSequencer_eq (min max : Int) (initial : List Int) (h : min ≤ max) :
    RangeSequencer min max initial
      = { min := min, max := max, value := startValue min max initial } := by
  have hm : (if min > max then max else min) = min := if_neg (not_lt.mpr h)
  unfold RangeSequencer startValue
  simp only [hm]
  cases initial with
  | nil => rfl
  | cons v _ =>
    simp only [ge_iff_le]
    split_ifs <;> rfl

/-- One call on a state inside its range, with `max` below the largest `int64`:
the increment does not wrap. -/
theorem rangeSequencer.Generate_snd {ε : Type} (s : rangeSequencer)
    (h1 : minInt64 ≤ s.value + 1) (h2 : s.value ≤ s.max) (h3 : s.max < maxInt64) :
    (rangeSequencer.Generate (ε := ε) s).2
      = { min := s.min, max := s.max,
          value := if s.value + 1 > s.max then s.min else s.value + 1 } := by
  have hw : wrap64 (s.value + 1) = s.value + 1 := by
    apply wrap64_of_inInt64
    unfold inInt64
    constructor <;> omega
  unfold rangeSequencer.Generate
  simp only [hw]
  split_ifs <;> rfl

theorem cyclic_succ (r span : Int) (a : Int) (hr : a % span = r) (hspan : 0 < span) :
    (a + 1) % span = if r + 1 < span then r + 1 else 0 := by
  have h0 : 0 ≤ r := hr ▸ Int.emod_nonneg a (ne_of_gt hspan)
  have h1 : r < span := hr ▸ Int.emod_lt_of_pos a hspan
  rw [← Int.emod_add_emod, hr]
  split_ifs with h
  · exact Int.emod_eq_of_lt (by omega) h
  · have : r + 1 = span := by omega
    rw [this, Int.emod_self]

/-- The state after `k` calls, in closed form. -/
theorem rangeSequencer.after_eq (s : rangeSequencer) (hmin : minInt64 ≤ s.min)
    (h1 : s.min ≤ s.value) (h2 : s.value ≤ s.max) (h3 : s.max < maxInt64) (k : Nat) :
    s.after k = { min := s.min, max := s.max,
                  value := s.min + (s.value - s.min + k) % (s.max - s.min + 1) } := by
  have hspan : 0 < s.max - s.min + 1 := by omega
  induction k with
  | zero =>
    have : (s.value - s.min + ((0 : Nat) : Int)) % (s.max - s.min + 1) = s.value - s.min := by
      rw [Nat.cast_zero, add_zero]
      exact Int.emod_eq_of_lt (by omega) (by omega)
    rw [this]
    simp [rangeSequencer.after]
  | succ k ih =>
    have hr0 := Int.emod_nonneg (s.value - s.min + k) (ne_of_gt hspan)
    have hr1 := Int.emod_lt_of_pos (s.value - s.min + k) hspan
    have hstep := cyclic_succ _ _ (s.value - s.min + k) rfl hspan
    have hcast : s.value - s.min + ((k + 1 : Nat) : Int) = s.value - s.min + k + 1 := by
      push_cast; ring
    rw [hcast, hstep]
    have hg := rangeSequencer.Generate_snd (ε := Unit) (s.after k)
      (by rw [ih]; simp only []; omega) (by rw [ih]; simp only []; omega) (by rw [ih]; exact h3)
    show (rangeSequencer.Generate (ε := Unit) (s.after k)).2 = _
    rw [hg, ih]
    simp only []
    generalize (s.value - s.min + ↑k) % (s.max - s.min + 1) = r at hr0 hr1
    congr 1
    split_ifs <;> omega

theorem rangeSequencer.nth_eq (s : rangeSequencer) (k : Nat) :
    s.nth k = ((s.after k).value, none) := rfl

/-- C7: for `min ≤ max < 2^63 - 1` the call number `k` of `RangeSequencer(min, max,
initial...)` returns `min + ((s - min + k) mod (max - min + 1))` with a nil error,
`s` being the starting value. -/
theorem rangeSequencer_cyclic (min max : Int) (initial : List Int) (k : Nat)
    (hmin : minInt64 ≤ min) (h1 : min ≤ max) (h2 : max < maxInt64) :
    (RangeSequencer min max initial).nth k
      = (min + (startValue min max initial - min + k) % (max - min + 1), none) := by
  have hs := startValue_mem min max initial h1
  rw [rangeSequencer.nth_eq, RangeSequencer_eq min max initial h1,
    rangeSequencer.after_eq _ hmin hs.1 hs.2 h2]

/-- The test of the repository: `RangeSequencer(1, 3)` yields 1, 2, 3, 1. -/
theorem rangeSequencer_cyclic_witness :
    (RangeSequencer 1 3 []).nth 3 = (1 + (startValue 1 3 [] - 1 + (3 : Nat)) % (3 - 1 + 1), none) ∧
      [(RangeSequencer 1 3 []).nth 0, (RangeSequencer 1 3 []).nth 1,
        (RangeSequencer 1 3 []).nth 2, (RangeSequencer 1 3 []).nth 3]
        = [(1, none), (2, none), (3, none), (1, none)] :=
  ⟨rangeSequencer_cyclic 1 3 [] 3 (by decide) (by decide) (by decide), by decide⟩

/-- C8 fails on the code when `max` is the largest `int64`: `RangeSequencer(0, 2^63 - 1,
2^63 - 1)` returns `2^63 - 1`, its increment wraps to `-2^63`, which is not above
`max`, so the state leaves `[min, max]` and the second call returns `-2^63`. -/
theorem rangeSequencer_leaves_range :
    (RangeSequencer 0 maxInt64 [maxInt64]).nth 0 = (maxInt64, none) ∧
      (RangeSequencer 0 maxInt64 [maxInt64]).after 1
        = { min := 0, max := maxInt64, value := minInt64 } ∧
      (RangeSequencer 0 maxInt64 [maxInt64]).nth 1 = (minInt64, none) ∧
      ¬ ((RangeSequencer 0 maxInt64 [maxInt64]).min
          ≤ ((RangeSequencer 0 maxInt64 [maxInt64]).after 1).value) := by
  decide

/-! ## Runs of the generator over the range sequencer -/

theorem rangeSequencer.after_add (s : rangeSequencer) (p j : Nat) :
    (s.after p).after j = s.after (p + j) := by
  induction j with
  | zero => rfl
  | succ j ih =>
    show (rangeSequencer.Generate (ε := Unit) ((s.after p).after j)).2
      = (rangeSequencer.Generate (ε := Unit) (s.after (p + j))).2
    rw [ih]

theorem rangeSequencer.after_one_after (s : rangeSequencer) (j : Nat) :
    (s.after 1).after j = s.after (j + 1) := by
  rw [rangeSequencer.after_add, add_comm]

theorem Generator.run_length {σ ε : Type} (g : Generator σ ε) (nows : List Int) :
    ∀ st : σ, (g.run nows st).1.length = nows.length := by
  induction nows with
  | nil => intro st; rfl
  | cons now rest ih => intro st; simp [Generator.run, ih]

theorem Generator.run_append {σ ε : Type} (g : Generator σ ε) (pre rest : List Int) :
    ∀ st : σ, (g.run (pre ++ rest) st).1 = (g.run pre st).1 ++ (g.run rest (g.run pre st).2).1 := by
  induction pre with
  | nil => intro st; rfl
  | cons now pre ih => intro st; simp [Generator.run, ih]

/-- Over the range sequencer one call of the generator never fails. -/
theorem Generator.Generate_range {ε : Type} (g : Generator rangeSequencer ε)
    (hq : g.sequencer = rangeSeq ε) (now : Int) (s : rangeSequencer) :
    g.Generate now s
      = ((g.validator.Sign (wrap64 (composite g.since now s.value)), none), s.after 1) :=
  Generator.Generate_ok g now s.value s (s.after 1) (by rw [hq]; rfl)

theorem Generator.run_range_state {ε : Type} (g : Generator rangeSequencer ε)
    (hq : g.sequencer = rangeSeq ε) (nows : List Int) :
    ∀ s : rangeSequencer, (g.run nows s).2 = s.after nows.length := by
  induction nows with
  | nil => intro s; rfl
  | cons now rest ih =>
    intro s
    simp only [Generator.run, Generator.Generate_range g hq, ih, List.length_cons,
      rangeSequencer.after_one_after]

theorem Generator.run_range_same {ε : Type} (g : Generator rangeSequencer ε)
    (hq : g.sequencer = rangeSeq ε) (now : Int) (m : Nat) :
    ∀ s : rangeSequencer, (g.run (List.replicate m now) s).1
      = (List.range m).map
          (fun j => (g.validator.Sign (wrap64 (composite g.since now (s.after j).value)), none)) := by
  induction m with
  | zero => intro s; rfl
  | succ m ih =>
    intro s
    rw [List.replicate_succ, List.range_succ_eq_map]
    simp only [Generator.run, Generator.Generate_range g hq, ih, List.map_cons, List.map_map]
    congr 1
    apply List.map_congr_left
    intro j _
    simp only [Function.comp, rangeSequencer.after_one_after]

theorem cyclic_inj (a span : Int) (j₁ j₂ : Nat) (h1 : (j₁ : Int) < span) (h2 : (j₂ : Int) < span)
    (h : (a + j₁) % span = (a + j₂) % span) : j₁ = j₂ := by
  rw [Int.emod_eq_emod_iff_emod_sub_eq_zero] at h
  have hd : span ∣ ((j₁ : Int) - j₂) := by
    have := Int.dvd_of_emod_eq_zero h
    have e : a + (j₁ : Int) - (a + j₂) = (j₁ : Int) - j₂ := by ring
    rwa [e] at this
  have hz := Int.eq_zero_of_abs_lt_dvd hd (by rw [abs_lt]; constructor <;> omega)
  omega

theorem NoValidator_ne_LuhnValidator : NoValidator ≠ LuhnValidator := by
  intro h
  have e : NoValidator.Verify 1234567890 = LuhnValidator.Verify 1234567890 := by rw [h]
  exact absurd e (by decide)

/-- Both validators sign injectively as long as nothing overflows: the Luhn
validator when the signed forms fit, `NoValidator` always. -/
theorem sign_inj (V : Validator) (hV : V = LuhnValidator ∨ V = NoValidator) (c₁ c₂ : Int)
    (h1 : V = LuhnValidator → inInt64 (c₁ * 10 + checkDigit c₁))
    (h2 : V = LuhnValidator → inInt64 (c₂ * 10 + checkDigit c₂))
    (h : V.Sign c₁ = V.Sign c₂) : c₁ = c₂ := by
  rcases hV with rfl | rfl
  · have e : luhnSign c₁ = luhnSign c₂ := h
    rw [luhnSign_of_fits _ (h1 rfl), luhnSign_of_fits _ (h2 rfl)] at e
    have := checkDigit_nonneg c₁
    have := checkDigit_le c₁
    have := checkDigit_nonneg c₂
    have := checkDigit_le c₂
    omega
  · exact h

/-- C9: a generator over `RangeSequencer(min, max, initial...)` with
`0 ≤ min ≤ max < 2^63 - 1` and `max - min + 1 ≤ 10000`, signing with the Luhn
validator or with `NoValidator`: after any earlier calls (clock readings `pre`),
`m ≤ max - min + 1` consecutive calls that read the same second `now`, none of
which overflows, return `m` ids, without error and pairwise distinct. No
overflow means that each composite fits in `int64` and, under the Luhn
validator, that its signed form `composite * 10 + check digit` fits too; under
`NoValidator` the signed form is the composite itself. -/
theorem same_second_unique {ε : Type} (g : Generator rangeSequencer ε)
    (hq : g.sequencer = rangeSeq ε)
    (hV : g.validator = LuhnValidator ∨ g.validator = NoValidator)
    (min max : Int) (initial pre : List Int) (now : Int) (m : Nat)
    (h0 : 0 ≤ min) (h1 : min ≤ max) (h2 : max < maxInt64) (hspan : max - min + 1 ≤ 10000)
    (hm : (m : Int) ≤ max - min + 1)
    (hc : ∀ j, j < m →
      inInt64 (composite g.since now ((RangeSequencer min max initial).nth (pre.length + j)).1))
    (hs : g.validator = LuhnValidator → ∀ j, j < m →
      inInt64 (composite g.since now ((RangeSequencer min max initial).nth (pre.length + j)).1
          * 10
        + checkDigit
            (composite g.since now ((RangeSequencer min max initial).nth (pre.length + j)).1))) :
    ((g.run (pre ++ List.replicate m now) (RangeSequencer min max initial)).1.drop
        pre.length).length = m ∧
      (∀ r ∈ (g.run (pre ++ List.replicate m now) (RangeSequencer min max initial)).1.drop
        pre.length, r.2 = none) ∧
      (((g.run (pre ++ List.replicate m now) (RangeSequencer min max initial)).1.drop
        pre.length).map Prod.fst).Nodup := by
  have hsv := startValue_mem min max initial h1
  have hmin : minInt64 ≤ min := by unfold minInt64; omega
  have hpos : 0 < max - min + 1 := by omega
  -- the results of the last `m` calls
  have hdrop : (g.run (pre ++ List.replicate m now) (RangeSequencer min max initial)).1.drop
        pre.length
      = (List.range m).map (fun j => (g.validator.Sign (wrap64 (composite g.since now
          ((RangeSequencer min max initial).after (pre.length + j)).value)), none)) := by
    rw [Generator.run_append, List.drop_left' (Generator.run_length g pre _),
      Generator.run_range_state g hq, Generator.run_range_same g hq]
    apply List.map_congr_left
    intro j _
    rw [rangeSequencer.after_add]
  -- the sequence value of each of them
  have hval : ∀ j : Nat, ((RangeSequencer min max initial).after (pre.length + j)).value
      = min + (startValue min max initial - min + ((pre.length : Int) + j)) % (max - min + 1) := by
    intro j
    rw [RangeSequencer_eq min max initial h1, rangeSequencer.after_eq _ hmin hsv.1 hsv.2 h2]
    simp only [Nat.cast_add]
  rw [hdrop]
  refine ⟨by simp, ?_, ?_⟩
  · intro r hr
    rw [List.mem_map] at hr
    obtain ⟨j, _, rfl⟩ := hr
    rfl
  · rw [List.map_map]
    apply List.Nodup.map_on _ (List.nodup_range m)
    intro j₁ hj₁ j₂ hj₂ heq
    rw [List.mem_range] at hj₁ hj₂
    simp only [Function.comp] at heq
    have ho₁ := hc j₁ hj₁
    have ho₂ := hc j₂ hj₂
    have hs₁ := fun hL => hs hL j₁ hj₁
    have hs₂ := fun hL => hs hL j₂ hj₂
    rw [rangeSequencer.nth_eq] at ho₁ ho₂ hs₁ hs₂
    simp only [] at ho₁ ho₂ hs₁ hs₂
    rw [wrap64_of_inInt64 _ ho₁, wrap64_of_inInt64 _ ho₂] at heq
    have hc := sign_inj g.validator hV _ _ hs₁ hs₂ heq
    rw [hval j₁, hval j₂] at hc
    have hr₁0 := Int.emod_nonneg (startValue min max initial - min + ((pre.length : Int) + j₁))
      (ne_of_gt hpos)
    have hr₁1 := Int.emod_lt_of_pos (startValue min max initial - min + ((pre.length : Int) + j₁))
      hpos
    have hr₂0 := Int.emod_nonneg (startValue min max initial - min + ((pre.length : Int) + j₂))
      (ne_of_gt hpos)
    have hr₂1 := Int.emod_lt_of_pos (startValue min max initial - min + ((pre.length : Int) + j₂))
      hpos
    have hmod : (startValue min max initial - min + ((pre.length : Int) + j₁)) % (max - min + 1)
        = (startValue min max initial - min + ((pre.length : Int) + j₂)) % (max - min + 1) := by
      generalize (startValue min max initial - min + ((pre.length : Int) + j₁)) % (max - min + 1)
        = r₁ at hc hr₁0 hr₁1
      generalize (startValue min max initial - min + ((pre.length : Int) + j₂)) % (max - min + 1)
        = r₂ at hc hr₂0 hr₂1
      unfold composite at hc
      rw [Int.tmod_eq_emod (by omega) (by decide), Int.tmod_eq_emod (by omega) (by decide)] at hc
      omega
    rw [← add_assoc, ← add_assoc] at hmod
    exact cyclic_inj _ _ j₁ j₂ (by omega) (by omega) hmod

/-- Two concrete runs. `RangeSequencer(1, 3)` under the Luhn validator with origin
1000: after one call at second 1004, three calls at second 1005 return the
distinct ids `500023`, `500032` and `500014`. `RangeSequencer(0, 2)` under
`NoValidator` with origin 0: three calls at second `10 ^ 14` return the distinct
ids `10 ^ 18`, `10 ^ 18 + 1` and `10 ^ 18 + 2`, whose tenfold would leave `int64`. -/
theorem same_second_unique_witness :
    (((((New (rangeSeq Unit) LuhnValidator [1000]).run ([1004] ++ List.replicate 3 1005)
        (RangeSequencer 1 3 [])).1.drop [1004].length).map Prod.fst = [500023, 500032, 500014]) ∧
      ((((New (rangeSeq Unit) LuhnValidator [1000]).run ([1004] ++ List.replicate 3 1005)
        (RangeSequencer 1 3 [])).1.drop [1004].length).map Prod.fst).Nodup) ∧
    (((((New (rangeSeq Unit) NoValidator []).run ([] ++ List.replicate 3 100000000000000)
        (RangeSequencer 0 2 [])).1.drop ([] : List Int).length).map Prod.fst
          = [1000000000000000000, 1000000000000000001, 1000000000000000002]) ∧
      ((((New (rangeSeq Unit) NoValidator []).run ([] ++ List.replicate 3 100000000000000)
        (RangeSequencer 0 2 [])).1.drop ([] : List Int).length).map Prod.fst).Nodup) :=
  ⟨⟨by decide,
    (same_second_unique (New (rangeSeq Unit) LuhnValidator [1000]) rfl (Or.inl rfl) 1 3 [] [1004]
      1005 3 (by decide) (by decide) (by decide) (by decide) (by decide) (by decide)
      (fun _ => by decide)).2.2⟩,
   ⟨by decide,
    (same_second_unique (New (rangeSeq Unit) NoValidator []) rfl (Or.inr rfl) 0 2 [] []
      100000000000000 3 (by decide) (by decide) (by decide) (by decide) (by decide) (by decide)
      (fun h => absurd h NoValidator_ne_LuhnValidator)).2.2⟩⟩

/-! ## Further claims on the Luhn validator -/

/-- C11 fails on the code: the textbook number `79927398713` is valid under the
reference Luhn definition and `Verify` rejects it, while `19 = Sign 1` is accepted
by `Verify` and invalid under the reference definition. `Verify` hands the prefix
to `checksum`, whose loop starts with `double = false`, so the digit next to the
check digit is not doubled. -/
theorem luhnVerify_not_reference :
    (0 : Int) ≤ 79927398713 ∧ (79927398713 : Int) ≤ maxInt64 ∧
      referenceLuhnValid 79927398713 = true ∧ luhnVerify 79927398713 = false ∧
      luhnSign 1 = 19 ∧ luhnVerify 19 = true ∧ referenceLuhnValid 19 = false := by
  decide

/-- C13: for every `n`, negative, zero or positive, `checksum n` lies in `[0, 9]`,
and `checksum 0 = 0`; the loop ends within `n.toNat` iterations, so any larger
bound on the iterations gives the same result. -/
theorem checksum_range (n : Int) :
    0 ≤ checksum n ∧ checksum n ≤ 9 ∧ checksum 0 = 0 ∧
      ∀ fuel : Nat, n.toNat ≤ fuel → Int.tmod (checksumLoop fuel n 0 false) 10 = checksum n := by
  refine ⟨checksum_nonneg n, checksum_le n, by decide, fun fuel h => ?_⟩
  unfold checksum
  rw [checksumLoop_fuel fuel n.toNat n 0 false h (le_refl _)]

/-- C16: `NoValidator` signs every number as itself and verifies every number,
`1234567890` included, which the Luhn `Verify` rejects. -/
theorem noValidator_identity (x : Int) :
    NoValidator.Sign x = x ∧ NoValidator.Verify x = true ∧
      luhnVerify 1234567890 = false ∧ NoValidator.Verify 1234567890 = true :=
  ⟨rfl, rfl, by decide, rfl⟩

/-- C18: for `n ≤ 0` the digit loop does not run, `checksum n = 0`, the check
digit is 0, and `Sign` returns the `int64` product `n * 10` (the exact product
when it fits), never an error. -/
theorem luhn_degenerate (n : Int) (h : n ≤ 0) :
    (∀ (fuel : Nat) (luhn : Int) (double : Bool), checksumLoop fuel n luhn double = luhn) ∧
      checksum n = 0 ∧ checkDigit n = 0 ∧ luhnSign n = wrap64 (n * 10) ∧
      (inInt64 (n * 10) → luhnSign n = n * 10) := by
  have hc : checkDigit n = 0 := by
    unfold checkDigit
    simp [checksum_nonpos n h]
  have hs : luhnSign n = wrap64 (n * 10) := by rw [luhnSign_eq, hc, add_zero]
  refine ⟨fun fuel luhn double => checksumLoop_nonpos fuel n luhn double h,
    checksum_nonpos n h, hc, hs, fun hfit => ?_⟩
  rw [hs, wrap64_of_inInt64 _ hfit]

/-- The degenerate case at `n = -5`: `Sign (-5) = -50`. -/
theorem luhn_degenerate_witness :
    checksum (-5) = 0 ∧ checkDigit (-5) = 0 ∧ luhnSign (-5) = -50 :=
  ⟨(luhn_degenerate (-5) (by decide)).2.1, (luhn_degenerate (-5) (by decide)).2.2.1,
    (luhn_degenerate (-5) (by decide)).2.2.2.2 (by decide)⟩

/-- Exchanging the check digit with its neighbour is never noticed: both digits
enter the sum tested by `Verify` undoubled. -/
theorem luhnVerify_swap_last (q x d : Int) (hq : 0 ≤ q) (hx0 : 0 ≤ x) (hx9 : x ≤ 9)
    (hd0 : 0 ≤ d) (hd9 : d ≤ 9) :
    luhnVerify ((q * 10 + d) * 10 + x) = luhnVerify ((q * 10 + x) * 10 + d) := by
  have key : ∀ a b : Int, 0 ≤ a → a ≤ 9 → 0 ≤ b → b ≤ 9 →
      (luhnVerify ((q * 10 + a) * 10 + b) = true ↔
        (b + (a + luhnSum true q)) % 10 = 0) := by
    intro a b ha0 ha9 hb0 hb9
    have h1 : (q * 10 + a) % 10 = a := by omega
    have h2 : (q * 10 + a) / 10 = q := by omega
    rw [luhnVerify_append _ b (by omega) hb0 hb9, checksum_eq,
      luhnSum_step false _ (by omega), h1, h2]
    simp only [digitWeight, Bool.not_false, Bool.false_eq_true, if_false]
    omega
  rw [Bool.eq_iff_iff, key d x hd0 hd9 hx0 hx9, key x d hx0 hx9 hd0 hd9]
  constructor <;> intro h <;> omega

/-- C19 fails on the code for the check digit and its neighbour: `Sign 1 = 19`
holds the different digits 9 and 1 at positions 0 and 1, not the pair 0 and 9, and
the transposed number `91` is accepted by `Verify`. -/
theorem luhn_transposition_accepted :
    (0 : Int) ≤ 1 ∧ (1 : Int) * 10 + 9 ≤ maxInt64 ∧ luhnSign 1 = 19 ∧
      digitAt (luhnSign 1) 0 = 9 ∧ digitAt (luhnSign 1) 1 = 1 ∧
      swapAdjacent (luhnSign 1) 0 = 91 ∧ luhnVerify (swapAdjacent (luhnSign 1) 0) = true := by
  decide

/-- The checksum at `-7`, the case of a negative number. -/
theorem checksum_range_witness :
    0 ≤ checksum (-7) ∧ checksum (-7) ≤ 9 ∧ checksum 0 = 0 :=
  ⟨(checksum_range (-7)).1, (checksum_range (-7)).2.1, (checksum_range (-7)).2.2.1⟩

/-! ## The integer next to a signed number -/

theorem luhnSign_succ_fits (c : Int) (hc0 : 0 ≤ c) (hf : inInt64 (c * 10 + checkDigit c)) :
    inInt64 (luhnSign c + 1) := by
  have hd0 := checkDigit_nonneg c
  have hd9 := checkDigit_le c
  rw [luhnSign_of_fits c hf]
  unfold inInt64 minInt64 maxInt64 at hf ⊢
  refine ⟨by omega, ?_⟩
  by_contra hlt
  have hc : c = 922337203685477580 := by omega
  subst hc
  have : checkDigit 922337203685477580 = 9 := by decide
  omega

/-- The successor of a signed number verifies exactly when the check digit is 9
and the successor of the payload has checksum 0. -/
theorem luhnVerify_succ_sign (c : Int) (hc0 : 0 ≤ c) (hf : inInt64 (c * 10 + checkDigit c)) :
    luhnVerify (wrap64 (luhnSign c + 1)) = true ↔
      (checkDigit c = 9 ∧ checksum (c + 1) = 0) := by
  have hd0 := checkDigit_nonneg c
  have hd9 := checkDigit_le c
  have hk0 := checksum_nonneg c
  have hk9 := checksum_le c
  have hs0 := checksum_nonneg (c + 1)
  have hs9 := checksum_le (c + 1)
  have hsum := checkDigit_add_checksum c
  rw [wrap64_of_inInt64 _ (luhnSign_succ_fits c hc0 hf), luhnSign_of_fits c hf]
  by_cases h9 : checkDigit c = 9
  · have e : c * 10 + checkDigit c + 1 = (c + 1) * 10 + 0 := by omega
    rw [e, luhnVerify_append (c + 1) 0 (by omega) (le_refl 0) (by decide)]
    constructor
    · intro h; exact ⟨h9, by omega⟩
    · intro h; omega
  · have e : c * 10 + checkDigit c + 1 = c * 10 + (checkDigit c + 1) := by ring
    rw [e, luhnVerify_append c (checkDigit c + 1) hc0 (by omega) (by omega)]
    constructor
    · intro h; omega
    · intro h; exact absurd h.1 h9

theorem composite_nonneg (since now seq : Int) (ht : since ≤ now) (hs : 0 ≤ seq) :
    0 ≤ composite since now seq := by
  unfold composite
  rw [Int.tmod_eq_emod hs (by decide)]
  omega

/-- C12 (as amended): for a generator with the Luhn validator, a clock reading at
or after the origin, a sequence value `≥ 0` and no overflow, the integer next to
the generated id `v` is rejected by `Valid`, except exactly when the check digit
of `v` is 9 and the successor of the composite has checksum 0. -/
theorem generate_adjacent_invalid {σ ε : Type} (g : Generator σ ε) (now seq : Int) (st st' : σ)
    (hv : g.validator = LuhnValidator)
    (hseq : g.sequencer.Generate st = ((seq, none), st'))
    (ht : g.since ≤ now) (hs : 0 ≤ seq)
    (hc : inInt64 (composite g.since now seq))
    (hf : inInt64 (composite g.since now seq * 10 + checkDigit (composite g.since now seq))) :
    g.Valid (wrap64 ((g.Generate now st).1.1 + 1)) = false ↔
      ¬ (checkDigit (composite g.since now seq) = 9 ∧
          checksum (composite g.since now seq + 1) = 0) := by
  rw [Generator.Generate_ok g now seq st st' hseq, wrap64_of_inInt64 _ hc]
  unfold Generator.Valid
  rw [hv]
  show luhnVerify (wrap64 (luhnSign (composite g.since now seq) + 1)) = false ↔ _
  rw [← luhnVerify_succ_sign _ (composite_nonneg _ _ _ ht hs) hf, Bool.not_eq_true]

/-- The test's set-up, `RangeSequencer(1, 100)` with the origin equal to the clock
reading: the id is `19`, and `20` is rejected. -/
theorem generate_adjacent_invalid_witness :
    ((New (rangeSeq Unit) LuhnValidator [1700000000]).Generate 1700000000
        (RangeSequencer 1 100 [])).1.1 = 19 ∧
      (New (rangeSeq Unit) LuhnValidator [1700000000]).Valid
        (wrap64 (((New (rangeSeq Unit) LuhnValidator [1700000000]).Generate 1700000000
          (RangeSequencer 1 100 [])).1.1 + 1)) = false :=
  ⟨by decide,
    (generate_adjacent_invalid (New (rangeSeq Unit) LuhnValidator [1700000000]) 1700000000 1
      (RangeSequencer 1 100 []) { min := 1, max := 100, value := 2 } rfl rfl (by decide)
      (by decide) (by decide) (by decide)).mpr (by decide)⟩

/-- C12 as stated fails: `RangeSequencer(0, 9999)` started at 9999, origin 1000 and
clock 81999 give the composite `809999999` and the id `8099999999`, and the next
integer `8100000000` is valid too. -/
theorem generate_adjacent_valid :
    (1000 : Int) ≤ 81999 ∧
      (New (rangeSeq Unit) LuhnValidator [1000]).Generate 81999 (RangeSequencer 0 9999 [9999])
        = ((8099999999, none), { min := 0, max := 9999, value := 0 }) ∧
      (New (rangeSeq Unit) LuhnValidator [1000]).Valid 8099999999 = true ∧
      (New (rangeSeq Unit) LuhnValidator [1000]).Valid (8099999999 + 1) = true := by
  decide

/-! ## Construction of the range sequencer -/

theorem RangeSequencer_clamped (min max : Int) (initial : List Int) (h : max < min) :
    RangeSequencer min max initial = { min := max, max := max, value := max } := by
  have hm : (if min > max then max else min) = max := if_pos h
  unfold RangeSequencer
  simp only [hm]
  cases initial with
  | nil => rfl
  | cons v _ =>
    simp only [ge_iff_le]
    split_ifs with hv
    · have : v = max := le_antisymm hv.2 hv.1
      rw [this]
    · rfl

/-- C14: for `int64` bounds with `min > max`, every call to `Generate` on
`RangeSequencer(min, max, initial...)` returns `max` with a nil error. -/
theorem rangeSequencer_clamp (min max : Int) (initial : List Int) (k : Nat)
    (hmin : min ≤ maxInt64) (hmax : minInt64 ≤ max) (h : max < min) :
    (RangeSequencer min max initial).nth k = (max, none) := by
  rw [rangeSequencer.nth_eq, RangeSequencer_clamped min max initial h,
    rangeSequencer.after_eq _ hmax (le_refl _) (le_refl _) (by simp only []; omega)]
  simp

/-- The example of the specification: `min = 5`, `max = 2` returns 2 repeatedly. -/
theorem rangeSequencer_clamp_witness :
    (RangeSequencer 5 2 []).nth 4 = (2, none) ∧
      [(RangeSequencer 5 2 []).nth 0, (RangeSequencer 5 2 []).nth 1, (RangeSequencer 5 2 []).nth 2]
        = [(2, none), (2, none), (2, none)] :=
  ⟨rangeSequencer_clamp 5 2 [] 4 (by decide) (by decide) (by decide), by decide⟩

/-- C15: with `m` the lower bound after clamping, the first call on
`RangeSequencer(min, max, initial)` returns `initial` when `m ≤ initial ≤ max` and
`m` otherwise; with no initial value it returns `m`. -/
theorem rangeSequencer_first (min max v : Int) (rest : List Int) :
    (RangeSequencer min max []).nth 0 = (clampedMin min max, none) ∧
      (clampedMin min max ≤ v ∧ v ≤ max →
        (RangeSequencer min max (v :: rest)).nth 0 = (v, none)) ∧
      (¬ (clampedMin min max ≤ v ∧ v ≤ max) →
        (RangeSequencer min max (v :: rest)).nth 0 = (clampedMin min max, none)) := by
  refine ⟨rfl, fun hv => ?_, fun hv => ?_⟩
  · rw [rangeSequencer.nth_eq]
    simp only [rangeSequencer.after, RangeSequencer, ge_iff_le]
    unfold clampedMin at hv
    rw [if_pos hv]
  · rw [rangeSequencer.nth_eq]
    simp only [rangeSequencer.after, RangeSequencer, ge_iff_le]
    unfold clampedMin at hv ⊢
    rw [if_neg hv]

/-- Three constructions over `[1, 100]`: no initial value, one inside the range and
one outside it. -/
theorem rangeSequencer_first_witness :
    (RangeSequencer 1 100 []).nth 0 = (1, none) ∧
      (RangeSequencer 1 100 [42]).nth 0 = (42, none) ∧
      (RangeSequencer 1 100 [500]).nth 0 = (1, none) :=
  ⟨(rangeSequencer_first 1 100 42 []).1, (rangeSequencer_first 1 100 42 []).2.1 (by decide),
    (rangeSequencer_first 1 100 500 []).2.2 (by decide)⟩

/-! ## Order and the sequence field -/

theorem luhnSign_lt (a b : Int) (ha : 0 ≤ a) (hab : a < b)
    (hb : inInt64 (b * 10 + checkDigit b)) : luhnSign a < luhnSign b := by
  have ha0 := checkDigit_nonneg a
  have ha9 := checkDigit_le a
  have hb0 := checkDigit_nonneg b
  have hfa : inInt64 (a * 10 + checkDigit a) := by
    unfold inInt64 minInt64 maxInt64 at hb ⊢
    constructor <;> omega
  rw [luhnSign_of_fits a hfa, luhnSign_of_fits b hb]
  omega

theorem composite_lt (since t₁ t₂ s₁ s₂ : Int) (ht : t₁ < t₂) (hs₁ : 0 ≤ s₁) (hs₂ : 0 ≤ s₂) :
    composite since t₁ s₁ < composite since t₂ s₂ := by
  unfold composite
  rw [Int.tmod_eq_emod hs₁ (by decide), Int.tmod_eq_emod hs₂ (by decide)]
  omega

/-- C17: with a fixed origin and the Luhn validator or `NoValidator`, clock
readings `origin ≤ t₁ < t₂`, sequence values `s₁, s₂ ≥ 0` and no overflow, the id
generated at `t₁` is below the id generated at `t₂`; and the Luhn `Sign` is
strictly increasing on the numbers `≥ 0` whose signed form fits. No overflow
means that both composites fit in `int64` and, under the Luhn validator, that
the signed form of the later one fits (that of the earlier one is smaller);
`NoValidator` returns the composite itself. -/
theorem ids_grow_with_time {σ ε : Type} (g : Generator σ ε) (t₁ t₂ s₁ s₂ : Int)
    (st₁ st₁' st₂ st₂' : σ)
    (hV : g.validator = LuhnValidator ∨ g.validator = NoValidator)
    (hq₁ : g.sequencer.Generate st₁ = ((s₁, none), st₁'))
    (hq₂ : g.sequencer.Generate st₂ = ((s₂, none), st₂'))
    (ho : g.since ≤ t₁) (ht : t₁ < t₂) (hs₁ : 0 ≤ s₁) (hs₂ : 0 ≤ s₂)
    (h₁ : inInt64 (composite g.since t₁ s₁)) (h₂ : inInt64 (composite g.since t₂ s₂))
    (hf : g.validator = LuhnValidator →
      inInt64 (composite g.since t₂ s₂ * 10 + checkDigit (composite g.since t₂ s₂))) :
    (g.Generate t₁ st₁).1.1 < (g.Generate t₂ st₂).1.1 ∧
      ∀ a b : Int, 0 ≤ a → a < b → inInt64 (b * 10 + checkDigit b) →
        luhnSign a < luhnSign b := by
  refine ⟨?_, fun a b ha hab hb => luhnSign_lt a b ha hab hb⟩
  rw [Generator.Generate_ok g t₁ s₁ st₁ st₁' hq₁, Generator.Generate_ok g t₂ s₂ st₂ st₂' hq₂,
    wrap64_of_inInt64 _ h₁, wrap64_of_inInt64 _ h₂]
  have hlt := composite_lt g.since t₁ t₂ s₁ s₂ ht hs₁ hs₂
  have h0 := composite_nonneg g.since t₁ s₁ ho hs₁
  rcases hV with hV | hV
  · have hfit := hf hV
    rw [hV]
    exact luhnSign_lt _ _ h0 hlt hfit
  · rw [hV]
    exact hlt

/-- Two pairs of ids. Under the Luhn validator with origin 1000, second 1005 with
sequence value 9999 gives `599999` and second 1006 with sequence value 0 gives
`600004`. Under `NoValidator` with origin 0, second `10 ^ 14` with sequence value
9999 gives `10 ^ 18 + 9999` and the next second with sequence value 0 gives
`10 ^ 18 + 10000`, composites whose tenfold would leave `int64`. -/
theorem ids_grow_with_time_witness :
    (((New (rangeSeq Unit) LuhnValidator [1000]).Generate 1005 (RangeSequencer 0 9999 [9999])).1.1
        = 599999 ∧
      ((New (rangeSeq Unit) LuhnValidator [1000]).Generate 1006 (RangeSequencer 0 9999 [])).1.1
        = 600004 ∧
      ((New (rangeSeq Unit) LuhnValidator [1000]).Generate 1005 (RangeSequencer 0 9999 [9999])).1.1
        < ((New (rangeSeq Unit) LuhnValidator [1000]).Generate 1006
            (RangeSequencer 0 9999 [])).1.1) ∧
    (((New (rangeSeq Unit) NoValidator []).Generate 100000000000000
          (RangeSequencer 0 9999 [9999])).1.1 = 1000000000000009999 ∧
      ((New (rangeSeq Unit) NoValidator []).Generate 100000000000001
          (RangeSequencer 0 9999 [])).1.1 = 1000000000000010000 ∧
      ((New (rangeSeq Unit) NoValidator []).Generate 100000000000000
          (RangeSequencer 0 9999 [9999])).1.1
        < ((New (rangeSeq Unit) NoValidator []).Generate 100000000000001
            (RangeSequencer 0 9999 [])).1.1) :=
  ⟨⟨by decide, by decide, (ids_grow_with_time (New (rangeSeq Unit) LuhnValidator [1000]) 1005 1006
    9999 0 (RangeSequencer 0 9999 [9999]) { min := 0, max := 9999, value := 0 }
    (RangeSequencer 0 9999 []) { min := 0, max := 9999, value := 1 }
    (Or.inl rfl) rfl rfl (by decide) (by decide) (by decide) (by decide) (by decide)
    (by decide) (fun _ => by decide)).1⟩,
   ⟨by decide, by decide, (ids_grow_with_time (New (rangeSeq Unit) NoValidator [])
    100000000000000 100000000000001
    9999 0 (RangeSequencer 0 9999 [9999]) { min := 0, max := 9999, value := 0 }
    (RangeSequencer 0 9999 []) { min := 0, max := 9999, value := 1 }
    (Or.inr rfl) rfl rfl (by decide) (by decide) (by decide) (by decide) (by decide)
    (by decide) (fun h => absurd h NoValidator_ne_LuhnValidator)).1⟩⟩

/-- C20 (as amended): for a clock reading at or after the origin and a sequence
value `seq ≥ 0` whose composite fits in `int64`, `seq % 10000` lies in `0..9999`,
the number `Generate` signs gives back the elapsed seconds on division by 10000
and the low four digits of `seq` as remainder, and a second value `seq2 ≥ 0`
that differs from `seq` by a multiple of 10000 gives the same id in that second. -/
theorem sequence_field {σ ε : Type} (g : Generator σ ε) (now seq seq2 : Int)
    (st st' st₂ st₂' : σ)
    (hq : g.sequencer.Generate st = ((seq, none), st'))
    (hq₂ : g.sequencer.Generate st₂ = ((seq2, none), st₂'))
    (he : 0 ≤ now - g.since) (hs : 0 ≤ seq) (hs₂ : 0 ≤ seq2)
    (hmod : (seq - seq2) % 10000 = 0)
    (hfit : inInt64 (composite g.since now seq)) :
    (0 ≤ Int.tmod seq 10000 ∧ Int.tmod seq 10000 ≤ 9999) ∧
      Int.tdiv (wrap64 (wrap64 (wrap64 (now - g.since) * 10000) + Int.tmod seq 10000)) 10000
        = now - g.since ∧
      Int.tmod (wrap64 (wrap64 (wrap64 (now - g.since) * 10000) + Int.tmod seq 10000)) 10000
        = seq % 10000 ∧
      (g.Generate now st).1 = (g.Generate now st₂).1 := by
  have hm : Int.tmod seq 10000 = seq % 10000 := Int.tmod_eq_emod hs (by decide)
  have hm₂ : Int.tmod seq2 10000 = seq2 % 10000 := Int.tmod_eq_emod hs₂ (by decide)
  have hc0 : 0 ≤ composite g.since now seq := composite_nonneg _ _ _ (by omega) hs
  have hcomp : composite g.since now seq = (now - g.since) * 10000 + seq % 10000 := by
    unfold composite; rw [hm]
  have heq : composite g.since now seq2 = composite g.since now seq := by
    unfold composite; rw [hm, hm₂]; omega
  rw [wrap64_composite, wrap64_of_inInt64 _ hfit, Int.tdiv_eq_ediv hc0 (by decide),
    Int.tmod_eq_emod hc0 (by decide), hm, hcomp]
  refine ⟨⟨by omega, by omega⟩, by omega, by omega, ?_⟩
  rw [Generator.Generate_ok g now seq st st' hq, Generator.Generate_ok g now seq2 st₂ st₂' hq₂,
    heq]

/-- Sequence values 12345 and 2345 in second 1005, origin 1000, `NoValidator`: both
give the id `52345`. -/
theorem sequence_field_witness :
    ((New (rangeSeq Unit) NoValidator [1000]).Generate 1005 (RangeSequencer 1 99999 [12345])).1
        = (52345, none) ∧
      ((New (rangeSeq Unit) NoValidator [1000]).Generate 1005 (RangeSequencer 1 99999 [12345])).1
        = ((New (rangeSeq Unit) NoValidator [1000]).Generate 1005 (RangeSequencer 1 99999 [2345])).1 :=
  ⟨by decide,
    (sequence_field (New (rangeSeq Unit) NoValidator [1000]) 1005 12345 2345
      (RangeSequencer 1 99999 [12345]) { min := 1, max := 99999, value := 12346 }
      (RangeSequencer 1 99999 [2345]) { min := 1, max := 99999, value := 2346 }
      rfl rfl (by decide) (by decide) (by decide) (by decide) (by decide)).2.2.2⟩

/-- C20 as stated fails on a negative sequence value, which `RangeSequencer(-1, 9999)`
returns first: `-1 % 10000 = -1` is outside `0..9999`, the number signed in second
1 is `9999`, whose quotient by 10000 is 0 and not the elapsed 1, and the sequence
values `-1` and `9999`, 10000 apart, give the different ids 9999 and 19999. It also
fails when the composite overflows: with `10 ^ 15` elapsed seconds the signed
number is negative. -/
theorem sequence_field_negative :
    (RangeSequencer (-1) 9999 []).nth 0 = (-1, none) ∧
      Int.tmod (-1) 10000 = -1 ∧
      (New (rangeSeq Unit) NoValidator []).Generate 1 (RangeSequencer (-1) 9999 [])
        = ((9999, none), { min := -1, max := 9999, value := 0 }) ∧
      Int.tdiv 9999 10000 = 0 ∧
      (New (rangeSeq Unit) NoValidator []).Generate 1 (RangeSequencer (-1) 9999 [9999])
        = ((19999, none), { min := -1, max := 9999, value := -1 }) ∧
      (New (rangeSeq Unit) NoValidator []).Generate 1000000000000000 (RangeSequencer 0 9999 [])
        = ((-8446744073709551616, none), { min := 0, max := 9999, value := 1 }) := by
  decide

end Id
